import Mathlib

/-!
Verification development for the solana-rpc-tests load-testing core
(package load_testing, file load_testing.go), shallowly embedded in Lean.

Go `time.Duration` is int64 nanoseconds; we model it as `Int` (no claim here
exercises 64-bit overflow).  The effectful parts of `performRequest` (HTTP
transport, the httptrace callbacks, the JSON decoding) are modelled by an
environment record `RequestEnv` that records what the outside world did on
one call; `performRequest` itself is the faithful translation of the Go
control flow over that record.  `StartTest` is decomposed into its pure
constituents: per-unit execution (`runUnit`), the result-stream filter
(`sentResults`), the keyed aggregation fold (`aggregateMap`), and the
finalization pass (`reportedAggregate`), in exactly the order the Go code
performs them (merge loop runs until the channel closes, then one
finalization pass).
-/

namespace LoadTesting

/-- Go `time.Duration` (int64 nanoseconds), modelled as `Int`. -/
abbrev Duration := Int

/-- Source struct `RequestTimings`: four phase durations of one call. -/
structure RequestTimings where
  DNSLookup : Duration
  TCPConnection : Duration
  TLSHandshake : Duration
  ServerProcessing : Duration
deriving Repr, DecidableEq

/-- The zero value of `RequestTimings` (Go `RequestTimings{}` / the zero of a
declared `var timings RequestTimings`). -/
def zeroTimings : RequestTimings := ⟨0, 0, 0, 0⟩

/-- Source function `minDuration`. -/
def minDuration (a b : Duration) : Duration :=
  if a < b then a else b

/-- Source function `maxDuration`. -/
def maxDuration (a b : Duration) : Duration :=
  if a > b then a else b

/-- Environment of one `performRequest` call: which fallible steps fail, and
the values the httptrace callbacks and the wall clock produced.
`serverProcessing` is the value computed by the `GotFirstResponseByte`
callback, `time.Since(start) - connectDuration - dnsDuration - tlsDuration`,
which can be negative; the phase durations are whatever the trace callbacks
left in the captured variables (zero when a callback never fired). -/
structure RequestEnv where
  newRequestErr : Bool
  limiterErr : Bool
  doErr : Bool
  readErr : Bool
  statusCode : Nat
  unmarshalErr : Bool
  rpcErr : Bool
  dnsDuration : Duration
  connectDuration : Duration
  tlsDuration : Duration
  serverProcessing : Duration
  requestTime : Duration
deriving Repr, DecidableEq

/-- The triple returned by Go `performRequest`:
`(time.Duration, RequestTimings, error)`. -/
structure PerformResult where
  requestTime : Duration
  timings : RequestTimings
  err : Option String
deriving Repr, DecidableEq

/-- Source function `performRequest`, translated branch by branch.  Every
error return in the Go code yields elapsed time `0` and zero-valued timings
(the still-zero `timings` variable on the early paths, the explicit
`RequestTimings{}` on the decode paths). -/
def performRequest (env : RequestEnv) : PerformResult :=
  if env.newRequestErr then ⟨0, zeroTimings, some "http.NewRequest"⟩
  else if env.limiterErr then ⟨0, zeroTimings, some "limiter.Wait"⟩
  else if env.doErr then ⟨0, zeroTimings, some "client.Do"⟩
  else if env.serverProcessing < 0 then
    ⟨0, zeroTimings, some "invalid calculation of serverProcessing"⟩
  else if env.readErr then ⟨0, zeroTimings, some "io.ReadAll"⟩
  else if env.statusCode ≠ 200 then ⟨0, zeroTimings, some "response.Status"⟩
  else if env.unmarshalErr then ⟨0, zeroTimings, some "json.Unmarshal"⟩
  else if env.rpcErr then ⟨0, zeroTimings, some "jsonrpc error"⟩
  else
    ⟨env.requestTime,
     ⟨env.dnsDuration, env.connectDuration, env.tlsDuration, env.serverProcessing⟩,
     none⟩

/-- Source struct `BenchmarkResult`.  The Go `Params interface{}` field holds
the parameter value the unit was bound to; we keep the varying part (the
selected account key). -/
structure BenchmarkResult where
  URL : String
  Method : String
  MinTimings : RequestTimings
  MaxTimings : RequestTimings
  AverageTimings : RequestTimings
  TotalTimings : RequestTimings
  TotalTime : Duration
  RequestsCount : Nat
  Params : String
deriving Repr, DecidableEq

/-- Per-phase minimum of two timing records, as the four `minDuration`
updates in `benchmarkMethod` / `StartTest` perform it. -/
def minTimingsMerge (a b : RequestTimings) : RequestTimings :=
  ⟨minDuration a.DNSLookup b.DNSLookup,
   minDuration a.TCPConnection b.TCPConnection,
   minDuration a.TLSHandshake b.TLSHandshake,
   minDuration a.ServerProcessing b.ServerProcessing⟩

/-- Per-phase maximum of two timing records, as the four `maxDuration`
updates in `benchmarkMethod` / `StartTest` perform it. -/
def maxTimingsMerge (a b : RequestTimings) : RequestTimings :=
  ⟨maxDuration a.DNSLookup b.DNSLookup,
   maxDuration a.TCPConnection b.TCPConnection,
   maxDuration a.TLSHandshake b.TLSHandshake,
   maxDuration a.ServerProcessing b.ServerProcessing⟩

/-- Per-phase sum of two timing records, as the four `+=` updates in
`benchmarkMethod` / `StartTest` perform it. -/
def addTimings (a b : RequestTimings) : RequestTimings :=
  ⟨a.DNSLookup + b.DNSLookup,
   a.TCPConnection + b.TCPConnection,
   a.TLSHandshake + b.TLSHandshake,
   a.ServerProcessing + b.ServerProcessing⟩

/-- The loop state of `benchmarkMethod`: the local variables `totalTime`,
`minTimings`, `maxTimings`, `totalTimings`, `performedRequests`. -/
structure RunnerState where
  totalTime : Duration
  minTimings : RequestTimings
  maxTimings : RequestTimings
  totalTimings : RequestTimings
  performedRequests : Nat
deriving Repr, DecidableEq

/-- The successful-attempt part of one `benchmarkMethod` loop iteration:
seed min/max on the first success, otherwise fold per-phase min/max; always
accumulate totals and the success counter. -/
def consumeStep (s : RunnerState) (r : PerformResult) : RunnerState :=
  { totalTime := s.totalTime + r.requestTime
    minTimings := if s.performedRequests = 0 then r.timings
      else minTimingsMerge s.minTimings r.timings
    maxTimings := if s.performedRequests = 0 then r.timings
      else maxTimingsMerge s.maxTimings r.timings
    totalTimings := addTimings s.totalTimings r.timings
    performedRequests := s.performedRequests + 1 }

/-- One full `benchmarkMethod` loop iteration: a failed `performRequest` is
logged and skipped (`continue`), leaving the state unchanged. -/
def runnerStep (s : RunnerState) (env : RequestEnv) : RunnerState :=
  let r := performRequest env
  match r.err with
  | some _ => s
  | none => consumeStep s r

/-- The zero values of `benchmarkMethod`'s local variables before the loop. -/
def initRunnerState : RunnerState := ⟨0, zeroTimings, zeroTimings, zeroTimings, 0⟩

/-- The per-phase average computation of `benchmarkMethod` (and the identical
division in `StartTest` finalization): Go `int` / `time.Duration` division,
which truncates toward zero (`Int.tdiv`). -/
def avgOfTotals (t : RequestTimings) (n : Nat) : RequestTimings :=
  ⟨t.DNSLookup.tdiv n, t.TCPConnection.tdiv n,
   t.TLSHandshake.tdiv n, t.ServerProcessing.tdiv n⟩

/-- Source constant `reqPerMethod` (hard-coded repeat count of the loop in
`benchmarkMethod`). -/
def reqPerMethod : Nat := 1

/-- Source function `benchmarkMethod`.  The Go loop runs `reqPerMethod`
iterations, each calling `performRequest` against the live environment; we
pass the list of per-iteration environments explicitly (its length is
`reqPerMethod` in the running program). -/
def benchmarkMethod (url method params : String) (envs : List RequestEnv) :
    BenchmarkResult :=
  let s := envs.foldl runnerStep initRunnerState
  let avgTimings :=
    if 0 < s.performedRequests then avgOfTotals s.totalTimings s.performedRequests
    else zeroTimings
  { URL := url
    Method := method
    MinTimings := s.minTimings
    MaxTimings := s.maxTimings
    AverageTimings := avgTimings
    TotalTimings := s.totalTimings
    TotalTime := s.totalTime
    RequestsCount := s.performedRequests
    Params := params }

/-- The `PerformResult`s of the successful attempts among `envs`, in order. -/
def successPerforms (envs : List RequestEnv) : List PerformResult :=
  envs.filterMap fun e =>
    let r := performRequest e
    if r.err.isNone then some r else none

/-- The timing records of the successful attempts among `envs`, in order. -/
def successTimings (envs : List RequestEnv) : List RequestTimings :=
  (successPerforms envs).map (·.timings)

/-- Constant `GetAccountInfo`, the single fixed method name every unit
benchmarks.  It is declared in a repository file outside `src/`; its exact
string value is irrelevant to every claim. -/
def GetAccountInfo : String := "getAccountInfo"

/-- Environment of one scheduled unit (one goroutine body in `StartTest`):
whether `json.Marshal` of the request body fails, and the per-attempt
environments its `benchmarkMethod` call sees. -/
structure UnitEnv where
  marshalErr : Bool
  attempts : List RequestEnv
deriving Repr, DecidableEq

/-- The parameter-pool index `accountIndex := i % len(AccountKeys)` computed
by `StartTest` for unit `i`. -/
def accountIndex (i : Nat) (accountKeys : List String) : Nat :=
  i % accountKeys.length

/-- The body of the goroutine `StartTest` launches for unit `i`: on a
`json.Marshal` error the unit logs and returns producing nothing; otherwise
it runs `benchmarkMethod` with the round-robin selected account key.
(`List.getD` with default matches the in-bounds Go index `accountKeys[accountIndex]`
whenever the pool is non-empty.) -/
def runUnit (url : String) (accountKeys : List String) (i : Nat) (u : UnitEnv) :
    Option BenchmarkResult :=
  if u.marshalErr then none
  else some (benchmarkMethod url GetAccountInfo
    (accountKeys.getD (accountIndex i accountKeys) "") u.attempts)

/-- The `BenchmarkResult`s produced by the `totalRequests` launched units
(unit `i` paired with its environment), before the channel-send filter. -/
def unitResults (url : String) (accountKeys : List String) (units : List UnitEnv) :
    List BenchmarkResult :=
  units.enum.filterMap fun p => runUnit url accountKeys p.1 p.2

/-- The results actually sent on the `results` channel: `StartTest` sends
`resp` only under `if resp.RequestsCount != 0`.  The channel delivers them
in some arrival order; theorems over arbitrary lists/permutations cover
every order. -/
def sentResults (url : String) (accountKeys : List String) (units : List UnitEnv) :
    List BenchmarkResult :=
  (unitResults url accountKeys units).filter fun r => r.RequestsCount != 0

/-- Source struct `AggregateBenchmarkResult`. -/
structure AggregateBenchmarkResult where
  URL : String
  Method : String
  TotalTime : Duration
  RequestsCount : Nat
  AggregateTimings : RequestTimings
  MaxTimings : RequestTimings
  MinTimings : RequestTimings
deriving Repr, DecidableEq

/-- The `!ok` branch of `StartTest`'s merge loop: the first result for a key
seeds the aggregate verbatim (`AggregateTimings` from the result's
`TotalTimings`, min/max/time/count copied). -/
def seedAggregate (r : BenchmarkResult) : AggregateBenchmarkResult :=
  { URL := r.URL
    Method := r.Method
    TotalTime := r.TotalTime
    RequestsCount := r.RequestsCount
    AggregateTimings := r.TotalTimings
    MaxTimings := r.MaxTimings
    MinTimings := r.MinTimings }

/-- The `ok` branch of `StartTest`'s merge loop: accumulate time, count and
phase sums by addition; per-phase min of mins and max of maxes. -/
def mergeAggregate (a : AggregateBenchmarkResult) (r : BenchmarkResult) :
    AggregateBenchmarkResult :=
  { a with
    TotalTime := a.TotalTime + r.TotalTime
    RequestsCount := a.RequestsCount + r.RequestsCount
    AggregateTimings := addTimings a.AggregateTimings r.TotalTimings
    MinTimings := minTimingsMerge a.MinTimings r.MinTimings
    MaxTimings := maxTimingsMerge a.MaxTimings r.MaxTimings }

/-- One merge-loop iteration for a key: seed on first sight, merge after. -/
def stepAggregate (acc : Option AggregateBenchmarkResult) (r : BenchmarkResult) :
    AggregateBenchmarkResult :=
  match acc with
  | none => seedAggregate r
  | some a => mergeAggregate a r

/-- The map entry for one key after the merge loop has consumed the given
(same-key) results in arrival order; `none` when the key was never seen. -/
def aggregateKeyFold (rs : List BenchmarkResult) :
    Option AggregateBenchmarkResult :=
  rs.foldl (fun acc r => some (stepAggregate acc r)) none

/-- The map key `fmt.Sprintf("%s_%s", result.URL, result.Method)`. -/
def resultKey (r : BenchmarkResult) : String := r.URL ++ "_" ++ r.Method

/-- The `aggregateResults` map after the merge loop has drained the whole
stream `rs`, read at key `k` (a map is its lookup function; only the
same-key results affect an entry, in their arrival order). -/
def aggregateMap (rs : List BenchmarkResult) (k : String) :
    Option AggregateBenchmarkResult :=
  aggregateKeyFold (rs.filter fun r => resultKey r == k)

/-- The finalization pass `StartTest` performs once per key after the stream
closes: divide each summed phase total by the key's `RequestsCount`
(Go integer/`Duration` division, truncating toward zero). -/
def finalizeAggregate (a : AggregateBenchmarkResult) : AggregateBenchmarkResult :=
  { a with AggregateTimings := avgOfTotals a.AggregateTimings a.RequestsCount }

/-- The reported aggregate for key `k`: the merge loop runs to stream close
(`for result := range results` exits only after `close(results)`), and only
then is `finalizeAggregate` applied, exactly once, to each entry; the entry
is not touched again afterwards. -/
def reportedAggregate (rs : List BenchmarkResult) (k : String) :
    Option AggregateBenchmarkResult :=
  (aggregateMap rs k).map finalizeAggregate

/-- Allocation-identity model of a `rate.NewLimiter` call: every call returns
a pointer to a freshly allocated `rate.Limiter`, modelled as consuming the
next fresh allocation id. -/
def newLimiter (next : Nat) : Nat × Nat := (next, next + 1)

/-- The limiter allocations of `StartTest`'s unit loop: each of the
`totalRequests` goroutines evaluates `rate.NewLimiter(rate.Limit(rateLimit), 1)`
in its `benchmarkMethod` call, allocating a fresh limiter. -/
def allocUnitLimiters : Nat → Nat → List Nat
  | 0, _ => []
  | Nat.succ n, next =>
    let p := newLimiter next
    p.1 :: allocUnitLimiters n p.2

/-- Resource-identity model of `StartTest`: the single `http.Client` is
allocated once before the unit loop (id `0`) and the same pointer is passed
to every unit; each unit then allocates its own limiter.  Returns
(client id shared by all units, limiter id of each unit in launch order). -/
def startTestResources (totalRequests : Nat) : Nat × List Nat :=
  let clientId := 0
  (clientId, allocUnitLimiters totalRequests (clientId + 1))

/-! ### Basic lemmas about the duration helpers -/

/-- The source helper `minDuration` is the lattice minimum on `Int`. -/
theorem minDuration_eq_min (a b : Duration) : minDuration a b = min a b := by
  unfold minDuration
  rcases lt_or_ge a b with h | h
  · rw [if_pos h, min_eq_left h.le]
  · rw [if_neg (not_lt.mpr h), min_eq_right h]

/-- The source helper `maxDuration` is the lattice maximum on `Int`. -/
theorem maxDuration_eq_max (a b : Duration) : maxDuration a b = max a b := by
  unfold maxDuration
  rcases lt_or_ge b a with h | h
  · rw [if_pos h, max_eq_left h.le]
  · rw [if_neg (not_lt.mpr h), max_eq_right h]

/-- Truncating division and floor division agree on a non-negative dividend
and a natural divisor (the Go integer division in the average computations
is a floor there). -/
theorem tdiv_eq_fdiv_of_nonneg (a : Duration) (ha : 0 ≤ a) (n : Nat) :
    a.tdiv n = a.fdiv n := by
  have hn : (0 : Int) ≤ (n : Int) := Int.ofNat_nonneg n
  rw [Int.tdiv_eq_ediv ha hn, Int.fdiv_eq_ediv a hn]

/-! ### Seeded fold-min and fold-max over `Int` lists -/

/-- Seeded minimum of a non-empty list (first element seeds, as the first
successful attempt seeds `minTimings`); `0` on the empty list. -/
def listMin1 : List Int → Int
  | [] => 0
  | x :: xs => xs.foldl min x

/-- Seeded maximum of a non-empty list; `0` on the empty list. -/
def listMax1 : List Int → Int
  | [] => 0
  | x :: xs => xs.foldl max x

theorem foldl_min_le_init : ∀ (l : List Int) (a : Int), l.foldl min a ≤ a := by
  intro l
  induction l with
  | nil => intro a; simp
  | cons x t ih =>
    intro a
    calc (x :: t).foldl min a = t.foldl min (min a x) := rfl
    _ ≤ min a x := ih (min a x)
    _ ≤ a := min_le_left a x

theorem foldl_min_le_of_mem :
    ∀ (l : List Int) (a x : Int), x ∈ l → l.foldl min a ≤ x := by
  intro l
  induction l with
  | nil => intro a x hx; cases hx
  | cons y t ih =>
    intro a x hx
    rcases List.mem_cons.mp hx with h | h
    · subst h
      calc (x :: t).foldl min a = t.foldl min (min a x) := rfl
      _ ≤ min a x := foldl_min_le_init t (min a x)
      _ ≤ x := min_le_right a x
    · exact ih (min a y) x h

theorem foldl_min_mem_or :
    ∀ (l : List Int) (a : Int), l.foldl min a = a ∨ l.foldl min a ∈ l := by
  intro l
  induction l with
  | nil => intro a; left; rfl
  | cons x t ih =>
    intro a
    have hstep : (x :: t).foldl min a = t.foldl min (min a x) := rfl
    rcases ih (min a x) with h | h
    · rcases min_choice a x with hc | hc
      · left; rw [hstep, h, hc]
      · right; rw [hstep, h, hc]; exact List.mem_cons_self x t
    · right; rw [hstep]; exact List.mem_cons_of_mem x h

theorem foldl_max_init_le : ∀ (l : List Int) (a : Int), a ≤ l.foldl max a := by
  intro l
  induction l with
  | nil => intro a; simp
  | cons x t ih =>
    intro a
    calc a ≤ max a x := le_max_left a x
    _ ≤ t.foldl max (max a x) := ih (max a x)
    _ = (x :: t).foldl max a := rfl

theorem foldl_max_le_of_mem :
    ∀ (l : List Int) (a x : Int), x ∈ l → x ≤ l.foldl max a := by
  intro l
  induction l with
  | nil => intro a x hx; cases hx
  | cons y t ih =>
    intro a x hx
    rcases List.mem_cons.mp hx with h | h
    · subst h
      calc x ≤ max a x := le_max_right a x
      _ ≤ t.foldl max (max a x) := foldl_max_init_le t (max a x)
      _ = (x :: t).foldl max a := rfl
    · exact ih (max a y) x h

theorem foldl_max_mem_or :
    ∀ (l : List Int) (a : Int), l.foldl max a = a ∨ l.foldl max a ∈ l := by
  intro l
  induction l with
  | nil => intro a; left; rfl
  | cons x t ih =>
    intro a
    have hstep : (x :: t).foldl max a = t.foldl max (max a x) := rfl
    rcases ih (max a x) with h | h
    · rcases max_choice a x with hc | hc
      · left; rw [hstep, h, hc]
      · right; rw [hstep, h, hc]; exact List.mem_cons_self x t
    · right; rw [hstep]; exact List.mem_cons_of_mem x h

/-- The seeded minimum of a non-empty list is a member and a lower bound. -/
theorem listMin1_spec (l : List Int) (hl : l ≠ []) :
    listMin1 l ∈ l ∧ ∀ x ∈ l, listMin1 l ≤ x := by
  cases l with
  | nil => exact absurd rfl hl
  | cons y t =>
    constructor
    · rcases foldl_min_mem_or t y with h | h
      · rw [listMin1, h]; exact List.mem_cons_self y t
      · rw [listMin1]; exact List.mem_cons_of_mem y h
    · intro x hx
      rcases List.mem_cons.mp hx with h | h
      · subst h; exact foldl_min_le_init t x
      · exact foldl_min_le_of_mem t y x h

/-- The seeded maximum of a non-empty list is a member and an upper bound. -/
theorem listMax1_spec (l : List Int) (hl : l ≠ []) :
    listMax1 l ∈ l ∧ ∀ x ∈ l, x ≤ listMax1 l := by
  cases l with
  | nil => exact absurd rfl hl
  | cons y t =>
    constructor
    · rcases foldl_max_mem_or t y with h | h
      · rw [listMax1, h]; exact List.mem_cons_self y t
      · rw [listMax1]; exact List.mem_cons_of_mem y h
    · intro x hx
      rcases List.mem_cons.mp hx with h | h
      · subst h; exact foldl_max_init_le t x
      · exact foldl_max_le_of_mem t y x h

/-- Seeded minimum is invariant under permutation. -/
theorem listMin1_perm {l1 l2 : List Int} (h : l1.Perm l2) :
    listMin1 l1 = listMin1 l2 := by
  cases l1 with
  | nil =>
    have : l2 = [] := h.symm.eq_nil
    rw [this]
  | cons y t =>
    have h1 : (y :: t) ≠ ([] : List Int) := by simp
    have h2 : l2 ≠ [] := by
      intro hc
      subst hc
      exact h1 h.eq_nil
    obtain ⟨hm1, hb1⟩ := listMin1_spec (y :: t) h1
    obtain ⟨hm2, hb2⟩ := listMin1_spec l2 h2
    exact le_antisymm (hb1 _ (h.mem_iff.mpr hm2)) (hb2 _ (h.mem_iff.mp hm1))

/-- Seeded maximum is invariant under permutation. -/
theorem listMax1_perm {l1 l2 : List Int} (h : l1.Perm l2) :
    listMax1 l1 = listMax1 l2 := by
  cases l1 with
  | nil =>
    have : l2 = [] := h.symm.eq_nil
    rw [this]
  | cons y t =>
    have h1 : (y :: t) ≠ ([] : List Int) := by simp
    have h2 : l2 ≠ [] := by
      intro hc
      subst hc
      exact h1 h.eq_nil
    obtain ⟨hm1, hb1⟩ := listMax1_spec (y :: t) h1
    obtain ⟨hm2, hb2⟩ := listMax1_spec l2 h2
    exact le_antisymm (hb2 _ (h.mem_iff.mp hm1)) (hb1 _ (h.mem_iff.mpr hm2))

/-! ### The `benchmarkMethod` loop as a fold over the successful attempts -/

theorem successPerforms_cons (e : RequestEnv) (rest : List RequestEnv) :
    successPerforms (e :: rest) =
      (if (performRequest e).err.isNone then [performRequest e] else []) ++
        successPerforms rest := by
  cases h : (performRequest e).err <;>
    simp [successPerforms, List.filterMap_cons, h]

/-- The loop skips failed attempts, so the fold over all attempts equals the
fold over the successful ones. -/
theorem foldl_runnerStep_eq :
    ∀ (envs : List RequestEnv) (s : RunnerState),
      envs.foldl runnerStep s = (successPerforms envs).foldl consumeStep s := by
  intro envs
  induction envs with
  | nil => intro s; rfl
  | cons e rest ih =>
    intro s
    rw [List.foldl_cons, successPerforms_cons]
    cases h : (performRequest e).err with
    | none =>
      have hstep : runnerStep s e = consumeStep s (performRequest e) := by
        simp only [runnerStep, h]
      rw [hstep]
      simp
      exact ih (consumeStep s (performRequest e))
    | some msg =>
      have hstep : runnerStep s e = s := by
        simp only [runnerStep, h]
      rw [hstep]
      simp
      exact ih s

/-- Filtering the attempt list down to the successes does not change which
attempts succeed. -/
theorem successPerforms_filter (envs : List RequestEnv) :
    successPerforms (envs.filter fun e => (performRequest e).err.isNone) =
      successPerforms envs := by
  induction envs with
  | nil => rfl
  | cons e rest ih =>
    rw [List.filter_cons]
    cases h : (performRequest e).err with
    | none =>
      simp only [h, Option.isNone_none, if_pos]
      rw [successPerforms_cons, successPerforms_cons, ih]
    | some msg =>
      simp only [h, Option.isNone_some, Bool.false_eq_true, if_neg,
        not_false_eq_true]
      rw [ih, successPerforms_cons, h]
      simp

/-- All attempts failing means no successes. -/
theorem successPerforms_eq_nil (envs : List RequestEnv)
    (hall : ∀ e ∈ envs, (performRequest e).err.isSome) :
    successPerforms envs = [] := by
  induction envs with
  | nil => rfl
  | cons e rest ih =>
    rw [successPerforms_cons]
    have he := hall e (List.mem_cons_self e rest)
    have hno : (performRequest e).err.isNone = false := by
      cases h : (performRequest e).err
      · rw [h] at he; simp at he
      · simp [h]
    rw [hno]
    simp only [Bool.false_eq_true, if_neg, List.nil_append, not_false_eq_true]
    exact ih fun x hx => hall x (List.mem_cons_of_mem e hx)

theorem consume_fold_count :
    ∀ (rs : List PerformResult) (s : RunnerState),
      (rs.foldl consumeStep s).performedRequests =
        s.performedRequests + rs.length := by
  intro rs
  induction rs with
  | nil => intro s; simp
  | cons r rest ih =>
    intro s
    rw [List.foldl_cons, ih]
    simp [consumeStep]
    omega

theorem consume_fold_time :
    ∀ (rs : List PerformResult) (s : RunnerState),
      (rs.foldl consumeStep s).totalTime =
        s.totalTime + (rs.map (·.requestTime)).sum := by
  intro rs
  induction rs with
  | nil => intro s; simp
  | cons r rest ih =>
    intro s
    rw [List.foldl_cons, ih]
    simp [consumeStep]
    ring

theorem consume_fold_total (f : RequestTimings → Duration)
    (hf : ∀ x y, f (addTimings x y) = f x + f y) :
    ∀ (rs : List PerformResult) (s : RunnerState),
      f (rs.foldl consumeStep s).totalTimings =
        f s.totalTimings + (rs.map fun r => f r.timings).sum := by
  intro rs
  induction rs with
  | nil => intro s; simp
  | cons r rest ih =>
    intro s
    rw [List.foldl_cons, ih]
    have : (consumeStep s r).totalTimings = addTimings s.totalTimings r.timings := rfl
    rw [this, hf]
    simp
    ring

theorem consume_fold_min (f : RequestTimings → Duration)
    (hf : ∀ x y, f (minTimingsMerge x y) = min (f x) (f y)) :
    ∀ (rs : List PerformResult) (s : RunnerState),
      s.performedRequests ≠ 0 →
      f (rs.foldl consumeStep s).minTimings =
        (rs.map fun r => f r.timings).foldl min (f s.minTimings) := by
  intro rs
  induction rs with
  | nil => intro s _; simp
  | cons r rest ih =>
    intro s hs
    rw [List.foldl_cons, List.map_cons, List.foldl_cons]
    have hmin : (consumeStep s r).minTimings = minTimingsMerge s.minTimings r.timings := by
      unfold consumeStep
      simp [hs]
    have hcount : (consumeStep s r).performedRequests ≠ 0 := by
      simp [consumeStep]
    rw [ih (consumeStep s r) hcount, hmin, hf]

theorem consume_fold_max (f : RequestTimings → Duration)
    (hf : ∀ x y, f (maxTimingsMerge x y) = max (f x) (f y)) :
    ∀ (rs : List PerformResult) (s : RunnerState),
      s.performedRequests ≠ 0 →
      f (rs.foldl consumeStep s).maxTimings =
        (rs.map fun r => f r.timings).foldl max (f s.maxTimings) := by
  intro rs
  induction rs with
  | nil => intro s _; simp
  | cons r rest ih =>
    intro s hs
    rw [List.foldl_cons, List.map_cons, List.foldl_cons]
    have hmax : (consumeStep s r).maxTimings = maxTimingsMerge s.maxTimings r.timings := by
      unfold consumeStep
      simp [hs]
    have hcount : (consumeStep s r).performedRequests ≠ 0 := by
      simp [consumeStep]
    rw [ih (consumeStep s r) hcount, hmax, hf]

/-- The final loop state of `benchmarkMethod`, as a fold over the successes. -/
theorem benchmark_state_eq (envs : List RequestEnv) :
    envs.foldl runnerStep initRunnerState =
      (successPerforms envs).foldl consumeStep initRunnerState :=
  foldl_runnerStep_eq envs initRunnerState

/-- The success counter of `benchmarkMethod` counts the successful attempts. -/
theorem benchmark_count_eq (url method params : String) (envs : List RequestEnv) :
    (benchmarkMethod url method params envs).RequestsCount =
      (successPerforms envs).length := by
  show (envs.foldl runnerStep initRunnerState).performedRequests = _
  rw [benchmark_state_eq, consume_fold_count]
  simp [initRunnerState]

/-- Per-phase minimum over a non-empty success list: the first success seeds,
later successes fold `minDuration` per phase. -/
theorem benchmark_min_phase (f : RequestTimings → Duration)
    (hf : ∀ x y, f (minTimingsMerge x y) = min (f x) (f y))
    (url method params : String) (envs : List RequestEnv)
    (hne : successPerforms envs ≠ []) :
    f (benchmarkMethod url method params envs).MinTimings =
      listMin1 ((successTimings envs).map f) := by
  show f (envs.foldl runnerStep initRunnerState).minTimings = _
  rw [benchmark_state_eq]
  cases hsp : successPerforms envs with
  | nil => exact absurd hsp hne
  | cons r rest =>
    rw [List.foldl_cons]
    have hseed : (consumeStep initRunnerState r).minTimings = r.timings := by
      unfold consumeStep initRunnerState
      simp
    have hcount : (consumeStep initRunnerState r).performedRequests ≠ 0 := by
      simp [consumeStep]
    rw [consume_fold_min f hf rest _ hcount, hseed]
    unfold successTimings
    rw [hsp]
    simp [listMin1, Function.comp_def]

/-- Per-phase maximum over a non-empty success list. -/
theorem benchmark_max_phase (f : RequestTimings → Duration)
    (hf : ∀ x y, f (maxTimingsMerge x y) = max (f x) (f y))
    (url method params : String) (envs : List RequestEnv)
    (hne : successPerforms envs ≠ []) :
    f (benchmarkMethod url method params envs).MaxTimings =
      listMax1 ((successTimings envs).map f) := by
  show f (envs.foldl runnerStep initRunnerState).maxTimings = _
  rw [benchmark_state_eq]
  cases hsp : successPerforms envs with
  | nil => exact absurd hsp hne
  | cons r rest =>
    rw [List.foldl_cons]
    have hseed : (consumeStep initRunnerState r).maxTimings = r.timings := by
      unfold consumeStep initRunnerState
      simp
    have hcount : (consumeStep initRunnerState r).performedRequests ≠ 0 := by
      simp [consumeStep]
    rw [consume_fold_max f hf rest _ hcount, hseed]
    unfold successTimings
    rw [hsp]
    simp [listMax1, Function.comp_def]

/-- Per-phase total over the successes. -/
theorem benchmark_total_phase (f : RequestTimings → Duration)
    (hf : ∀ x y, f (addTimings x y) = f x + f y) (hz : f zeroTimings = 0)
    (url method params : String) (envs : List RequestEnv) :
    f (benchmarkMethod url method params envs).TotalTimings =
      ((successTimings envs).map f).sum := by
  show f (envs.foldl runnerStep initRunnerState).totalTimings = _
  rw [benchmark_state_eq, consume_fold_total f hf]
  unfold successTimings
  show f initRunnerState.totalTimings + _ = _
  have : initRunnerState.totalTimings = zeroTimings := rfl
  rw [this, hz, List.map_map]
  simp [Function.comp_def]

/-! ### The merge loop as a fold, and its closed forms -/

/-- Record extensionality for `RequestTimings`. -/
theorem timings_ext (a b : RequestTimings)
    (h1 : a.DNSLookup = b.DNSLookup) (h2 : a.TCPConnection = b.TCPConnection)
    (h3 : a.TLSHandshake = b.TLSHandshake)
    (h4 : a.ServerProcessing = b.ServerProcessing) : a = b := by
  cases a
  cases b
  simp_all

theorem foldl_stepAggregate_some :
    ∀ (rs : List BenchmarkResult) (a : AggregateBenchmarkResult),
      rs.foldl (fun acc r => some (stepAggregate acc r)) (some a) =
        some (rs.foldl mergeAggregate a) := by
  intro rs
  induction rs with
  | nil => intro a; rfl
  | cons r rest ih =>
    intro a
    rw [List.foldl_cons, List.foldl_cons]
    exact ih (mergeAggregate a r)

/-- A non-empty same-key stream folds to the seed of its first result merged
with the rest. -/
theorem aggregateKeyFold_cons (r : BenchmarkResult) (rs : List BenchmarkResult) :
    aggregateKeyFold (r :: rs) = some (rs.foldl mergeAggregate (seedAggregate r)) := by
  unfold aggregateKeyFold
  rw [List.foldl_cons]
  exact foldl_stepAggregate_some rs (seedAggregate r)

theorem aggregateKeyFold_append (rs : List BenchmarkResult) (r : BenchmarkResult) :
    aggregateKeyFold (rs ++ [r]) = some (stepAggregate (aggregateKeyFold rs) r) := by
  unfold aggregateKeyFold
  rw [List.foldl_append]
  rfl

theorem merge_fold_count :
    ∀ (rs : List BenchmarkResult) (a : AggregateBenchmarkResult),
      (rs.foldl mergeAggregate a).RequestsCount =
        a.RequestsCount + (rs.map (·.RequestsCount)).sum := by
  intro rs
  induction rs with
  | nil => intro a; simp
  | cons r rest ih =>
    intro a
    rw [List.foldl_cons, ih]
    simp [mergeAggregate]
    omega

theorem merge_fold_time :
    ∀ (rs : List BenchmarkResult) (a : AggregateBenchmarkResult),
      (rs.foldl mergeAggregate a).TotalTime =
        a.TotalTime + (rs.map (·.TotalTime)).sum := by
  intro rs
  induction rs with
  | nil => intro a; simp
  | cons r rest ih =>
    intro a
    rw [List.foldl_cons, ih]
    simp [mergeAggregate]
    ring

theorem merge_fold_phase (f : RequestTimings → Duration)
    (hf : ∀ x y, f (addTimings x y) = f x + f y) :
    ∀ (rs : List BenchmarkResult) (a : AggregateBenchmarkResult),
      f (rs.foldl mergeAggregate a).AggregateTimings =
        f a.AggregateTimings + (rs.map fun r => f r.TotalTimings).sum := by
  intro rs
  induction rs with
  | nil => intro a; simp
  | cons r rest ih =>
    intro a
    rw [List.foldl_cons, ih]
    have : (mergeAggregate a r).AggregateTimings =
        addTimings a.AggregateTimings r.TotalTimings := rfl
    rw [this, hf]
    simp
    ring

theorem merge_fold_min (f : RequestTimings → Duration)
    (hf : ∀ x y, f (minTimingsMerge x y) = min (f x) (f y)) :
    ∀ (rs : List BenchmarkResult) (a : AggregateBenchmarkResult),
      f (rs.foldl mergeAggregate a).MinTimings =
        (rs.map fun r => f r.MinTimings).foldl min (f a.MinTimings) := by
  intro rs
  induction rs with
  | nil => intro a; simp
  | cons r rest ih =>
    intro a
    rw [List.foldl_cons, List.map_cons, List.foldl_cons, ih]
    have : (mergeAggregate a r).MinTimings =
        minTimingsMerge a.MinTimings r.MinTimings := rfl
    rw [this, hf]

theorem merge_fold_max (f : RequestTimings → Duration)
    (hf : ∀ x y, f (maxTimingsMerge x y) = max (f x) (f y)) :
    ∀ (rs : List BenchmarkResult) (a : AggregateBenchmarkResult),
      f (rs.foldl mergeAggregate a).MaxTimings =
        (rs.map fun r => f r.MaxTimings).foldl max (f a.MaxTimings) := by
  intro rs
  induction rs with
  | nil => intro a; simp
  | cons r rest ih =>
    intro a
    rw [List.foldl_cons, List.map_cons, List.foldl_cons, ih]
    have : (mergeAggregate a r).MaxTimings =
        maxTimingsMerge a.MaxTimings r.MaxTimings := rfl
    rw [this, hf]

/-- Closed form of a key entry: the successful-request count is the sum of
the merged results' counts. -/
theorem aggregateKeyFold_count (rs : List BenchmarkResult)
    (a : AggregateBenchmarkResult) (h : aggregateKeyFold rs = some a) :
    a.RequestsCount = (rs.map (·.RequestsCount)).sum := by
  cases rs with
  | nil => exact absurd h (by simp [aggregateKeyFold])
  | cons r rest =>
    rw [aggregateKeyFold_cons] at h
    have ha := Option.some.inj h
    rw [← ha, merge_fold_count]
    simp [seedAggregate]

theorem aggregateKeyFold_time (rs : List BenchmarkResult)
    (a : AggregateBenchmarkResult) (h : aggregateKeyFold rs = some a) :
    a.TotalTime = (rs.map (·.TotalTime)).sum := by
  cases rs with
  | nil => exact absurd h (by simp [aggregateKeyFold])
  | cons r rest =>
    rw [aggregateKeyFold_cons] at h
    have ha := Option.some.inj h
    rw [← ha, merge_fold_time]
    simp [seedAggregate]

theorem aggregateKeyFold_phase (f : RequestTimings → Duration)
    (hf : ∀ x y, f (addTimings x y) = f x + f y)
    (rs : List BenchmarkResult) (a : AggregateBenchmarkResult)
    (h : aggregateKeyFold rs = some a) :
    f a.AggregateTimings = (rs.map fun r => f r.TotalTimings).sum := by
  cases rs with
  | nil => exact absurd h (by simp [aggregateKeyFold])
  | cons r rest =>
    rw [aggregateKeyFold_cons] at h
    have ha := Option.some.inj h
    rw [← ha, merge_fold_phase f hf]
    have : (seedAggregate r).AggregateTimings = r.TotalTimings := rfl
    rw [this]
    simp

theorem aggregateKeyFold_min (f : RequestTimings → Duration)
    (hf : ∀ x y, f (minTimingsMerge x y) = min (f x) (f y))
    (rs : List BenchmarkResult) (a : AggregateBenchmarkResult)
    (h : aggregateKeyFold rs = some a) :
    f a.MinTimings = listMin1 (rs.map fun r => f r.MinTimings) := by
  cases rs with
  | nil => exact absurd h (by simp [aggregateKeyFold])
  | cons r rest =>
    rw [aggregateKeyFold_cons] at h
    have ha := Option.some.inj h
    rw [← ha, merge_fold_min f hf]
    have : (seedAggregate r).MinTimings = r.MinTimings := rfl
    rw [this, List.map_cons, listMin1]

theorem aggregateKeyFold_max (f : RequestTimings → Duration)
    (hf : ∀ x y, f (maxTimingsMerge x y) = max (f x) (f y))
    (rs : List BenchmarkResult) (a : AggregateBenchmarkResult)
    (h : aggregateKeyFold rs = some a) :
    f a.MaxTimings = listMax1 (rs.map fun r => f r.MaxTimings) := by
  cases rs with
  | nil => exact absurd h (by simp [aggregateKeyFold])
  | cons r rest =>
    rw [aggregateKeyFold_cons] at h
    have ha := Option.some.inj h
    rw [← ha, merge_fold_max f hf]
    have : (seedAggregate r).MaxTimings = r.MaxTimings := rfl
    rw [this, List.map_cons, listMax1]

/-! ### Concrete attempt environments used by witnesses -/

/-- A successful call environment whose trace produced a negative computed
server-processing value. -/
def envNegSP : RequestEnv :=
  ⟨false, false, false, false, 200, false, false, 1, 1, 1, -5, 10⟩

/-- A successful call environment with phase timings
(DNS frm 1, TCP frm 2, TLS frm 3, server frm 4). -/
def envMixA : RequestEnv :=
  ⟨false, false, false, false, 200, false, false, 1, 2, 3, 4, 10⟩

/-- A successful call environment with phase timings
(DNS frm 3, TCP frm 1, TLS frm 5, server frm 2). -/
def envMixB : RequestEnv :=
  ⟨false, false, false, false, 200, false, false, 3, 1, 5, 2, 11⟩

/-- A failing call environment (transport error in `client.Do`). -/
def envFail : RequestEnv :=
  ⟨false, false, true, false, 200, false, false, 0, 0, 0, 0, 0⟩

/-! ### Claims -/

theorem allocUnitLimiters_getD :
    ∀ (n next i : Nat), i < n → (allocUnitLimiters n next).getD i 0 = next + i := by
  intro n
  induction n with
  | zero => intro next i h; omega
  | succ m ih =>
    intro next i h
    cases i with
    | zero => rfl
    | succ j =>
      have hstep : (allocUnitLimiters (m + 1) next).getD (j + 1) 0 =
          (allocUnitLimiters m (next + 1)).getD j 0 := rfl
      rw [hstep, ih (next + 1) j (by omega)]
      omega

/-- C1: evaluation of the code against the claim.  In `StartTest` the single
`http.Client` is created once and shared (the model's client id is the one
id `0`), but `rate.NewLimiter` is evaluated inside every unit's goroutine,
so any two distinct units hold distinct limiter instances — the configured
rate limit is per-unit (and, with burst 1 and one request per unit, has no
throttling effect at all), contradicting the claimed single shared limiter. -/
theorem startTest_limiter_per_unit (totalRequests i j : Nat)
    (hi : i < totalRequests) (hj : j < totalRequests) (hij : i ≠ j) :
    (startTestResources totalRequests).1 = 0 ∧
    (startTestResources totalRequests).2.getD i 0 ≠
      (startTestResources totalRequests).2.getD j 0 := by
  refine ⟨rfl, ?_⟩
  have h1 : (startTestResources totalRequests).2.getD i 0 = 1 + i :=
    allocUnitLimiters_getD totalRequests 1 i hi
  have h2 : (startTestResources totalRequests).2.getD j 0 = 1 + j :=
    allocUnitLimiters_getD totalRequests 1 j hj
  rw [h1, h2]
  omega

theorem startTest_limiter_per_unit_witness :
    (startTestResources 2).1 = 0 ∧
    (startTestResources 2).2.getD 0 0 ≠ (startTestResources 2).2.getD 1 0 :=
  startTest_limiter_per_unit 2 0 1 (by decide) (by decide) (by decide)

/-- C2: if the computed server-processing time of a call is negative,
`performRequest` returns an error together with zero elapsed time and
zero-valued timings; consequently every successful call reports a
non-negative server-processing time. -/
theorem performRequest_negative_serverProcessing (env : RequestEnv) :
    (env.serverProcessing < 0 →
      (performRequest env).err.isSome ∧
      (performRequest env).requestTime = 0 ∧
      (performRequest env).timings = zeroTimings) ∧
    ((performRequest env).err = none →
      0 ≤ (performRequest env).timings.ServerProcessing) := by
  constructor
  · intro hneg
    unfold performRequest
    split_ifs <;> simp_all
  · intro hok
    unfold performRequest at hok ⊢
    split_ifs at hok ⊢
    all_goals simp_all

theorem performRequest_negative_serverProcessing_witness :
    ((performRequest envNegSP).err.isSome ∧
     (performRequest envNegSP).requestTime = 0 ∧
     (performRequest envNegSP).timings = zeroTimings) ∧
    0 ≤ (performRequest envMixA).timings.ServerProcessing :=
  ⟨(performRequest_negative_serverProcessing envNegSP).1 (by decide),
   (performRequest_negative_serverProcessing envMixA).2 (by decide)⟩

/-- C3: a unit none of whose attempts succeed produces a `BenchmarkResult`
with successful-count zero, and the result stream (guarded by
`if resp.RequestsCount != 0`) carries only results with non-zero
successful-count, so no zero-count result ever reaches the aggregator. -/
theorem zero_success_unit_never_sent (url method params : String)
    (envs : List RequestEnv) (accountKeys : List String) (units : List UnitEnv)
    (hall : ∀ e ∈ envs, (performRequest e).err.isSome) :
    (benchmarkMethod url method params envs).RequestsCount = 0 ∧
    ∀ r ∈ sentResults url accountKeys units, r.RequestsCount ≠ 0 := by
  constructor
  · rw [benchmark_count_eq, successPerforms_eq_nil envs hall]
    rfl
  · intro r hr
    have := List.of_mem_filter hr
    simpa using this

theorem zero_success_unit_never_sent_witness :
    (benchmarkMethod "u" "m" "p" [envFail]).RequestsCount = 0 ∧
    ∀ r ∈ sentResults "u" ["k"] [⟨false, [envFail]⟩], r.RequestsCount ≠ 0 :=
  zero_success_unit_never_sent "u" "m" "p" [envFail] ["k"] [⟨false, [envFail]⟩]
    (by decide)

/-- C4: failed attempts contribute nothing to min/max/average/total and do
not stop the remaining repeats (the result equals the result over the
successful attempts alone); min and max are computed independently per phase
across the successful attempts, so the min record may combine phases from
different attempts (witnessed by a run whose min record equals no single
attempt's timing vector). -/
theorem benchmark_failures_skipped_minmax_per_phase (url method params : String)
    (envs : List RequestEnv) :
    (benchmarkMethod url method params envs =
      benchmarkMethod url method params
        (envs.filter fun e => (performRequest e).err.isNone)) ∧
    (successTimings envs ≠ [] →
      ((benchmarkMethod url method params envs).MinTimings.DNSLookup =
          listMin1 ((successTimings envs).map (·.DNSLookup)) ∧
       (benchmarkMethod url method params envs).MinTimings.TCPConnection =
          listMin1 ((successTimings envs).map (·.TCPConnection)) ∧
       (benchmarkMethod url method params envs).MinTimings.TLSHandshake =
          listMin1 ((successTimings envs).map (·.TLSHandshake)) ∧
       (benchmarkMethod url method params envs).MinTimings.ServerProcessing =
          listMin1 ((successTimings envs).map (·.ServerProcessing))) ∧
      ((benchmarkMethod url method params envs).MaxTimings.DNSLookup =
          listMax1 ((successTimings envs).map (·.DNSLookup)) ∧
       (benchmarkMethod url method params envs).MaxTimings.TCPConnection =
          listMax1 ((successTimings envs).map (·.TCPConnection)) ∧
       (benchmarkMethod url method params envs).MaxTimings.TLSHandshake =
          listMax1 ((successTimings envs).map (·.TLSHandshake)) ∧
       (benchmarkMethod url method params envs).MaxTimings.ServerProcessing =
          listMax1 ((successTimings envs).map (·.ServerProcessing)))) ∧
    (∃ e1 e2 : RequestEnv,
      (performRequest e1).err = none ∧ (performRequest e2).err = none ∧
      (benchmarkMethod url method params [e1, e2]).RequestsCount = 2 ∧
      (benchmarkMethod url method params [e1, e2]).MinTimings ≠
        (performRequest e1).timings ∧
      (benchmarkMethod url method params [e1, e2]).MinTimings ≠
        (performRequest e2).timings) := by
  refine ⟨?_, ?_, ?_⟩
  · have hs : envs.foldl runnerStep initRunnerState =
        (envs.filter fun e => (performRequest e).err.isNone).foldl
          runnerStep initRunnerState := by
      rw [foldl_runnerStep_eq, foldl_runnerStep_eq, successPerforms_filter]
    simp only [benchmarkMethod]
    rw [hs]
  · intro hne
    have hsp : successPerforms envs ≠ [] := by
      intro h
      apply hne
      unfold successTimings
      rw [h]
      rfl
    exact ⟨⟨benchmark_min_phase (·.DNSLookup)
        (fun x y => minDuration_eq_min x.DNSLookup y.DNSLookup)
        url method params envs hsp,
      benchmark_min_phase (·.TCPConnection)
        (fun x y => minDuration_eq_min x.TCPConnection y.TCPConnection)
        url method params envs hsp,
      benchmark_min_phase (·.TLSHandshake)
        (fun x y => minDuration_eq_min x.TLSHandshake y.TLSHandshake)
        url method params envs hsp,
      benchmark_min_phase (·.ServerProcessing)
        (fun x y => minDuration_eq_min x.ServerProcessing y.ServerProcessing)
        url method params envs hsp⟩,
     ⟨benchmark_max_phase (·.DNSLookup)
        (fun x y => maxDuration_eq_max x.DNSLookup y.DNSLookup)
        url method params envs hsp,
      benchmark_max_phase (·.TCPConnection)
        (fun x y => maxDuration_eq_max x.TCPConnection y.TCPConnection)
        url method params envs hsp,
      benchmark_max_phase (·.TLSHandshake)
        (fun x y => maxDuration_eq_max x.TLSHandshake y.TLSHandshake)
        url method params envs hsp,
      benchmark_max_phase (·.ServerProcessing)
        (fun x y => maxDuration_eq_max x.ServerProcessing y.ServerProcessing)
        url method params envs hsp⟩⟩
  · refine ⟨envMixA, envMixB, rfl, rfl, ?_, ?_, ?_⟩
    · rw [benchmark_count_eq]
      decide
    · have h : (benchmarkMethod url method params [envMixA, envMixB]).MinTimings =
          ⟨1, 1, 3, 2⟩ := rfl
      rw [h]
      decide
    · have h : (benchmarkMethod url method params [envMixA, envMixB]).MinTimings =
          ⟨1, 1, 3, 2⟩ := rfl
      rw [h]
      decide

theorem benchmark_failures_skipped_minmax_witness :
    ((benchmarkMethod "u" "m" "p" [envMixA, envFail, envMixB]).MinTimings.DNSLookup =
        listMin1 ((successTimings [envMixA, envFail, envMixB]).map (·.DNSLookup)) ∧
     (benchmarkMethod "u" "m" "p" [envMixA, envFail, envMixB]).MinTimings.TCPConnection =
        listMin1 ((successTimings [envMixA, envFail, envMixB]).map (·.TCPConnection)) ∧
     (benchmarkMethod "u" "m" "p" [envMixA, envFail, envMixB]).MinTimings.TLSHandshake =
        listMin1 ((successTimings [envMixA, envFail, envMixB]).map (·.TLSHandshake)) ∧
     (benchmarkMethod "u" "m" "p" [envMixA, envFail, envMixB]).MinTimings.ServerProcessing =
        listMin1 ((successTimings [envMixA, envFail, envMixB]).map (·.ServerProcessing))) ∧
    ((benchmarkMethod "u" "m" "p" [envMixA, envFail, envMixB]).MaxTimings.DNSLookup =
        listMax1 ((successTimings [envMixA, envFail, envMixB]).map (·.DNSLookup)) ∧
     (benchmarkMethod "u" "m" "p" [envMixA, envFail, envMixB]).MaxTimings.TCPConnection =
        listMax1 ((successTimings [envMixA, envFail, envMixB]).map (·.TCPConnection)) ∧
     (benchmarkMethod "u" "m" "p" [envMixA, envFail, envMixB]).MaxTimings.TLSHandshake =
        listMax1 ((successTimings [envMixA, envFail, envMixB]).map (·.TLSHandshake)) ∧
     (benchmarkMethod "u" "m" "p" [envMixA, envFail, envMixB]).MaxTimings.ServerProcessing =
        listMax1 ((successTimings [envMixA, envFail, envMixB]).map (·.ServerProcessing))) :=
  (benchmark_failures_skipped_minmax_per_phase "u" "m" "p"
    [envMixA, envFail, envMixB]).2.1 (by decide)

/-- With at least one success, the reported average record is the total
record divided by the success count. -/
theorem benchmark_avg_eq (url method params : String) (envs : List RequestEnv)
    (hne : successPerforms envs ≠ []) :
    (benchmarkMethod url method params envs).AverageTimings =
      avgOfTotals (benchmarkMethod url method params envs).TotalTimings
        (benchmarkMethod url method params envs).RequestsCount := by
  have hcount : (benchmarkMethod url method params envs).RequestsCount =
      (successPerforms envs).length := benchmark_count_eq url method params envs
  have hpos : 0 < (envs.foldl runnerStep initRunnerState).performedRequests := by
    have : (envs.foldl runnerStep initRunnerState).performedRequests =
        (benchmarkMethod url method params envs).RequestsCount := rfl
    rw [this, hcount]
    exact List.length_pos.mpr hne
  simp only [benchmarkMethod]
  rw [if_pos hpos]

/-- C5: for a unit with n frm 1 successes, the reported average of each phase
is the sum of that phase over the successes divided by n with truncating
integer division, which is floor division whenever the summed phase total is
non-negative. -/
theorem benchmark_average_truncated_mean (url method params : String)
    (envs : List RequestEnv) (hne : successTimings envs ≠ []) :
    (benchmarkMethod url method params envs).RequestsCount =
        (successTimings envs).length ∧
    (benchmarkMethod url method params envs).AverageTimings.DNSLookup =
      Int.tdiv (((successTimings envs).map (fun t => t.DNSLookup)).sum)
        ((successTimings envs).length) ∧
    (benchmarkMethod url method params envs).AverageTimings.TCPConnection =
      Int.tdiv (((successTimings envs).map (fun t => t.TCPConnection)).sum)
        ((successTimings envs).length) ∧
    (benchmarkMethod url method params envs).AverageTimings.TLSHandshake =
      Int.tdiv (((successTimings envs).map (fun t => t.TLSHandshake)).sum)
        ((successTimings envs).length) ∧
    (benchmarkMethod url method params envs).AverageTimings.ServerProcessing =
      Int.tdiv (((successTimings envs).map (fun t => t.ServerProcessing)).sum)
        ((successTimings envs).length) ∧
    ∀ total : Duration, 0 ≤ total →
      total.tdiv ((successTimings envs).length) =
        total.fdiv ((successTimings envs).length) := by
  have hsp : successPerforms envs ≠ [] := by
    intro h
    apply hne
    unfold successTimings
    rw [h]
    rfl
  have hcount : (benchmarkMethod url method params envs).RequestsCount =
      (successTimings envs).length := by
    rw [benchmark_count_eq]
    unfold successTimings
    rw [List.length_map]
  have havg := benchmark_avg_eq url method params envs hsp
  have htotDNS : (benchmarkMethod url method params envs).TotalTimings.DNSLookup =
      ((successTimings envs).map (fun t => t.DNSLookup)).sum :=
    benchmark_total_phase (fun t => t.DNSLookup) (fun x y => rfl) rfl
      url method params envs
  have htotTCP : (benchmarkMethod url method params envs).TotalTimings.TCPConnection =
      ((successTimings envs).map (fun t => t.TCPConnection)).sum :=
    benchmark_total_phase (fun t => t.TCPConnection) (fun x y => rfl) rfl
      url method params envs
  have htotTLS : (benchmarkMethod url method params envs).TotalTimings.TLSHandshake =
      ((successTimings envs).map (fun t => t.TLSHandshake)).sum :=
    benchmark_total_phase (fun t => t.TLSHandshake) (fun x y => rfl) rfl
      url method params envs
  have htotSP : (benchmarkMethod url method params envs).TotalTimings.ServerProcessing =
      ((successTimings envs).map (fun t => t.ServerProcessing)).sum :=
    benchmark_total_phase (fun t => t.ServerProcessing) (fun x y => rfl) rfl
      url method params envs
  refine ⟨hcount, ?_, ?_, ?_, ?_, fun total h => tdiv_eq_fdiv_of_nonneg total h _⟩
  · rw [havg]
    show ((benchmarkMethod url method params envs).TotalTimings.DNSLookup).tdiv
        ((benchmarkMethod url method params envs).RequestsCount) = _
    rw [hcount, htotDNS]
  · rw [havg]
    show ((benchmarkMethod url method params envs).TotalTimings.TCPConnection).tdiv
        ((benchmarkMethod url method params envs).RequestsCount) = _
    rw [hcount, htotTCP]
  · rw [havg]
    show ((benchmarkMethod url method params envs).TotalTimings.TLSHandshake).tdiv
        ((benchmarkMethod url method params envs).RequestsCount) = _
    rw [hcount, htotTLS]
  · rw [havg]
    show ((benchmarkMethod url method params envs).TotalTimings.ServerProcessing).tdiv
        ((benchmarkMethod url method params envs).RequestsCount) = _
    rw [hcount, htotSP]

theorem benchmark_average_truncated_mean_witness :
    (benchmarkMethod "u" "m" "p" [envMixA, envMixB]).RequestsCount =
        (successTimings [envMixA, envMixB]).length ∧
    (benchmarkMethod "u" "m" "p" [envMixA, envMixB]).AverageTimings.DNSLookup =
      Int.tdiv (((successTimings [envMixA, envMixB]).map (fun t => t.DNSLookup)).sum)
        ((successTimings [envMixA, envMixB]).length) ∧
    (benchmarkMethod "u" "m" "p" [envMixA, envMixB]).AverageTimings.TCPConnection =
      Int.tdiv (((successTimings [envMixA, envMixB]).map (fun t => t.TCPConnection)).sum)
        ((successTimings [envMixA, envMixB]).length) ∧
    (benchmarkMethod "u" "m" "p" [envMixA, envMixB]).AverageTimings.TLSHandshake =
      Int.tdiv (((successTimings [envMixA, envMixB]).map (fun t => t.TLSHandshake)).sum)
        ((successTimings [envMixA, envMixB]).length) ∧
    (benchmarkMethod "u" "m" "p" [envMixA, envMixB]).AverageTimings.ServerProcessing =
      Int.tdiv (((successTimings [envMixA, envMixB]).map (fun t => t.ServerProcessing)).sum)
        ((successTimings [envMixA, envMixB]).length) ∧
    (4 : Duration).tdiv ((successTimings [envMixA, envMixB]).length) =
      (4 : Duration).fdiv ((successTimings [envMixA, envMixB]).length) := by
  have h := benchmark_average_truncated_mean "u" "m" "p" [envMixA, envMixB]
    (by decide)
  exact ⟨h.1, h.2.1, h.2.2.1, h.2.2.2.1, h.2.2.2.2.1,
    h.2.2.2.2.2 4 (by norm_num)⟩

/-- C6: the unit launched with index i is bound to parameter set
`i mod P` (P the pool size), and the 10-request / 4-parameter scenario
assigns pool index 0 to requests 0, 4, 8; index 1 to 1, 5, 9; index 2 to
2, 6; index 3 to 3, 7. -/
theorem round_robin_binding (url : String) (accountKeys : List String) (i : Nat)
    (u : UnitEnv) (r : BenchmarkResult)
    (hr : runUnit url accountKeys i u = some r) :
    r.Params = accountKeys.getD (i % accountKeys.length) "" ∧
    ((List.range 10).filter
        (fun j => accountIndex j ["p0", "p1", "p2", "p3"] == 0) = [0, 4, 8] ∧
     (List.range 10).filter
        (fun j => accountIndex j ["p0", "p1", "p2", "p3"] == 1) = [1, 5, 9] ∧
     (List.range 10).filter
        (fun j => accountIndex j ["p0", "p1", "p2", "p3"] == 2) = [2, 6] ∧
     (List.range 10).filter
        (fun j => accountIndex j ["p0", "p1", "p2", "p3"] == 3) = [3, 7]) := by
  constructor
  · unfold runUnit at hr
    by_cases hm : u.marshalErr = true
    · rw [if_pos hm] at hr
      cases hr
    · rw [if_neg hm] at hr
      have hinj := Option.some.inj hr
      rw [← hinj]
      rfl
  · decide

theorem round_robin_binding_witness :
    (benchmarkMethod "u" GetAccountInfo
        ((["p0", "p1", "p2", "p3"] : List String).getD
          (accountIndex 6 ["p0", "p1", "p2", "p3"]) "") []).Params =
      (["p0", "p1", "p2", "p3"] : List String).getD
        (6 % (["p0", "p1", "p2", "p3"] : List String).length) "" ∧
    ((List.range 10).filter
        (fun j => accountIndex j ["p0", "p1", "p2", "p3"] == 0) = [0, 4, 8] ∧
     (List.range 10).filter
        (fun j => accountIndex j ["p0", "p1", "p2", "p3"] == 1) = [1, 5, 9] ∧
     (List.range 10).filter
        (fun j => accountIndex j ["p0", "p1", "p2", "p3"] == 2) = [2, 6] ∧
     (List.range 10).filter
        (fun j => accountIndex j ["p0", "p1", "p2", "p3"] == 3) = [3, 7]) :=
  round_robin_binding "u" ["p0", "p1", "p2", "p3"] 6 ⟨false, []⟩ _ rfl

/-- A concrete unit result for key "u_m". -/
def resW1 : BenchmarkResult :=
  ⟨"u", "m", ⟨1, 2, 3, 4⟩, ⟨5, 6, 7, 8⟩, ⟨2, 3, 4, 5⟩, ⟨10, 11, 12, 13⟩, 40, 2, "p"⟩

/-- Another concrete unit result for key "u_m". -/
def resW2 : BenchmarkResult :=
  ⟨"u", "m", ⟨0, 3, 2, 9⟩, ⟨4, 7, 2, 9⟩, ⟨1, 2, 3, 4⟩, ⟨6, 5, 4, 3⟩, 20, 1, "q"⟩

/-- C7: the first result for a key seeds the aggregate verbatim (sums are
that result's totals, min/max its min/max); every later result for the key
accumulates count, total time and phase sums by addition and takes the
per-phase min of mins and max of maxes. -/
theorem aggregator_seed_and_merge (rs : List BenchmarkResult) (r : BenchmarkResult) :
    aggregateKeyFold [r] = some
      { URL := r.URL, Method := r.Method, TotalTime := r.TotalTime,
        RequestsCount := r.RequestsCount, AggregateTimings := r.TotalTimings,
        MaxTimings := r.MaxTimings, MinTimings := r.MinTimings } ∧
    ∀ a, aggregateKeyFold rs = some a →
      aggregateKeyFold (rs ++ [r]) = some (mergeAggregate a r) ∧
      (mergeAggregate a r).RequestsCount = a.RequestsCount + r.RequestsCount ∧
      (mergeAggregate a r).TotalTime = a.TotalTime + r.TotalTime ∧
      ((mergeAggregate a r).AggregateTimings.DNSLookup =
          a.AggregateTimings.DNSLookup + r.TotalTimings.DNSLookup ∧
       (mergeAggregate a r).AggregateTimings.TCPConnection =
          a.AggregateTimings.TCPConnection + r.TotalTimings.TCPConnection ∧
       (mergeAggregate a r).AggregateTimings.TLSHandshake =
          a.AggregateTimings.TLSHandshake + r.TotalTimings.TLSHandshake ∧
       (mergeAggregate a r).AggregateTimings.ServerProcessing =
          a.AggregateTimings.ServerProcessing + r.TotalTimings.ServerProcessing) ∧
      ((mergeAggregate a r).MinTimings.DNSLookup =
          min a.MinTimings.DNSLookup r.MinTimings.DNSLookup ∧
       (mergeAggregate a r).MinTimings.TCPConnection =
          min a.MinTimings.TCPConnection r.MinTimings.TCPConnection ∧
       (mergeAggregate a r).MinTimings.TLSHandshake =
          min a.MinTimings.TLSHandshake r.MinTimings.TLSHandshake ∧
       (mergeAggregate a r).MinTimings.ServerProcessing =
          min a.MinTimings.ServerProcessing r.MinTimings.ServerProcessing) ∧
      ((mergeAggregate a r).MaxTimings.DNSLookup =
          max a.MaxTimings.DNSLookup r.MaxTimings.DNSLookup ∧
       (mergeAggregate a r).MaxTimings.TCPConnection =
          max a.MaxTimings.TCPConnection r.MaxTimings.TCPConnection ∧
       (mergeAggregate a r).MaxTimings.TLSHandshake =
          max a.MaxTimings.TLSHandshake r.MaxTimings.TLSHandshake ∧
       (mergeAggregate a r).MaxTimings.ServerProcessing =
          max a.MaxTimings.ServerProcessing r.MaxTimings.ServerProcessing) := by
  refine ⟨rfl, fun a ha => ?_⟩
  refine ⟨?_, rfl, rfl,
    ⟨rfl, rfl, rfl, rfl⟩,
    ⟨minDuration_eq_min _ _, minDuration_eq_min _ _,
     minDuration_eq_min _ _, minDuration_eq_min _ _⟩,
    ⟨maxDuration_eq_max _ _, maxDuration_eq_max _ _,
     maxDuration_eq_max _ _, maxDuration_eq_max _ _⟩⟩
  rw [aggregateKeyFold_append, ha]
  rfl

theorem aggregator_seed_and_merge_witness :
    aggregateKeyFold ([resW1] ++ [resW2]) =
      some (mergeAggregate (seedAggregate resW1) resW2) ∧
    (mergeAggregate (seedAggregate resW1) resW2).MinTimings.DNSLookup =
      min (seedAggregate resW1).MinTimings.DNSLookup resW2.MinTimings.DNSLookup := by
  have h := (aggregator_seed_and_merge [resW1] resW2).2 (seedAggregate resW1) rfl
  exact ⟨h.1, h.2.2.2.2.1.1⟩

/-- C8: merging the same multiset of results for one key in any arrival
order yields the same min, max, phase-sum, count and total-time fields. -/
theorem aggregator_merge_order_independent (rs1 rs2 : List BenchmarkResult)
    (hperm : rs1.Perm rs2) (a1 a2 : AggregateBenchmarkResult)
    (h1 : aggregateKeyFold rs1 = some a1) (h2 : aggregateKeyFold rs2 = some a2) :
    a1.MinTimings = a2.MinTimings ∧ a1.MaxTimings = a2.MaxTimings ∧
    a1.AggregateTimings = a2.AggregateTimings ∧
    a1.RequestsCount = a2.RequestsCount ∧ a1.TotalTime = a2.TotalTime := by
  refine ⟨?_, ?_, ?_, ?_, ?_⟩
  · apply timings_ext
    · rw [aggregateKeyFold_min (fun t => t.DNSLookup)
          (fun x y => minDuration_eq_min _ _) rs1 a1 h1,
        aggregateKeyFold_min (fun t => t.DNSLookup)
          (fun x y => minDuration_eq_min _ _) rs2 a2 h2]
      exact listMin1_perm (hperm.map _)
    · rw [aggregateKeyFold_min (fun t => t.TCPConnection)
          (fun x y => minDuration_eq_min _ _) rs1 a1 h1,
        aggregateKeyFold_min (fun t => t.TCPConnection)
          (fun x y => minDuration_eq_min _ _) rs2 a2 h2]
      exact listMin1_perm (hperm.map _)
    · rw [aggregateKeyFold_min (fun t => t.TLSHandshake)
          (fun x y => minDuration_eq_min _ _) rs1 a1 h1,
        aggregateKeyFold_min (fun t => t.TLSHandshake)
          (fun x y => minDuration_eq_min _ _) rs2 a2 h2]
      exact listMin1_perm (hperm.map _)
    · rw [aggregateKeyFold_min (fun t => t.ServerProcessing)
          (fun x y => minDuration_eq_min _ _) rs1 a1 h1,
        aggregateKeyFold_min (fun t => t.ServerProcessing)
          (fun x y => minDuration_eq_min _ _) rs2 a2 h2]
      exact listMin1_perm (hperm.map _)
  · apply timings_ext
    · rw [aggregateKeyFold_max (fun t => t.DNSLookup)
          (fun x y => maxDuration_eq_max _ _) rs1 a1 h1,
        aggregateKeyFold_max (fun t => t.DNSLookup)
          (fun x y => maxDuration_eq_max _ _) rs2 a2 h2]
      exact listMax1_perm (hperm.map _)
    · rw [aggregateKeyFold_max (fun t => t.TCPConnection)
          (fun x y => maxDuration_eq_max _ _) rs1 a1 h1,
        aggregateKeyFold_max (fun t => t.TCPConnection)
          (fun x y => maxDuration_eq_max _ _) rs2 a2 h2]
      exact listMax1_perm (hperm.map _)
    · rw [aggregateKeyFold_max (fun t => t.TLSHandshake)
          (fun x y => maxDuration_eq_max _ _) rs1 a1 h1,
        aggregateKeyFold_max (fun t => t.TLSHandshake)
          (fun x y => maxDuration_eq_max _ _) rs2 a2 h2]
      exact listMax1_perm (hperm.map _)
    · rw [aggregateKeyFold_max (fun t => t.ServerProcessing)
          (fun x y => maxDuration_eq_max _ _) rs1 a1 h1,
        aggregateKeyFold_max (fun t => t.ServerProcessing)
          (fun x y => maxDuration_eq_max _ _) rs2 a2 h2]
      exact listMax1_perm (hperm.map _)
  · apply timings_ext
    · rw [aggregateKeyFold_phase (fun t => t.DNSLookup)
          (fun x y => rfl) rs1 a1 h1,
        aggregateKeyFold_phase (fun t => t.DNSLookup)
          (fun x y => rfl) rs2 a2 h2]
      exact (hperm.map _).sum_eq
    · rw [aggregateKeyFold_phase (fun t => t.TCPConnection)
          (fun x y => rfl) rs1 a1 h1,
        aggregateKeyFold_phase (fun t => t.TCPConnection)
          (fun x y => rfl) rs2 a2 h2]
      exact (hperm.map _).sum_eq
    · rw [aggregateKeyFold_phase (fun t => t.TLSHandshake)
          (fun x y => rfl) rs1 a1 h1,
        aggregateKeyFold_phase (fun t => t.TLSHandshake)
          (fun x y => rfl) rs2 a2 h2]
      exact (hperm.map _).sum_eq
    · rw [aggregateKeyFold_phase (fun t => t.ServerProcessing)
          (fun x y => rfl) rs1 a1 h1,
        aggregateKeyFold_phase (fun t => t.ServerProcessing)
          (fun x y => rfl) rs2 a2 h2]
      exact (hperm.map _).sum_eq
  · rw [aggregateKeyFold_count rs1 a1 h1, aggregateKeyFold_count rs2 a2 h2]
    exact (hperm.map _).sum_eq
  · rw [aggregateKeyFold_time rs1 a1 h1, aggregateKeyFold_time rs2 a2 h2]
    exact (hperm.map _).sum_eq

theorem aggregator_merge_order_independent_witness :
    (mergeAggregate (seedAggregate resW1) resW2).MinTimings =
      (mergeAggregate (seedAggregate resW2) resW1).MinTimings ∧
    (mergeAggregate (seedAggregate resW1) resW2).MaxTimings =
      (mergeAggregate (seedAggregate resW2) resW1).MaxTimings ∧
    (mergeAggregate (seedAggregate resW1) resW2).AggregateTimings =
      (mergeAggregate (seedAggregate resW2) resW1).AggregateTimings ∧
    (mergeAggregate (seedAggregate resW1) resW2).RequestsCount =
      (mergeAggregate (seedAggregate resW2) resW1).RequestsCount ∧
    (mergeAggregate (seedAggregate resW1) resW2).TotalTime =
      (mergeAggregate (seedAggregate resW2) resW1).TotalTime :=
  aggregator_merge_order_independent [resW1, resW2] [resW2, resW1]
    (List.Perm.swap resW2 resW1 [])
    (mergeAggregate (seedAggregate resW1) resW2)
    (mergeAggregate (seedAggregate resW2) resW1) rfl rfl

/-- C9: after the stream closes, the reported aggregate for a key is the
fully merged aggregate with exactly one finalization pass applied: each
summed phase total is divided once by the key's total successful count, and
nothing else (min, max, count, total time) is touched; the reported average
of each phase equals the once-divided sum over all same-key stream results. -/
theorem finalize_once_after_merges (rs : List BenchmarkResult) (k : String)
    (R : AggregateBenchmarkResult) (hR : reportedAggregate rs k = some R) :
    (∃ A, aggregateMap rs k = some A ∧ R = finalizeAggregate A ∧
      R.MinTimings = A.MinTimings ∧ R.MaxTimings = A.MaxTimings ∧
      R.RequestsCount = A.RequestsCount ∧ R.TotalTime = A.TotalTime ∧
      R.AggregateTimings.DNSLookup =
        Int.tdiv A.AggregateTimings.DNSLookup A.RequestsCount ∧
      R.AggregateTimings.TCPConnection =
        Int.tdiv A.AggregateTimings.TCPConnection A.RequestsCount ∧
      R.AggregateTimings.TLSHandshake =
        Int.tdiv A.AggregateTimings.TLSHandshake A.RequestsCount ∧
      R.AggregateTimings.ServerProcessing =
        Int.tdiv A.AggregateTimings.ServerProcessing A.RequestsCount) ∧
    R.RequestsCount =
      ((rs.filter fun r => resultKey r == k).map (·.RequestsCount)).sum ∧
    R.AggregateTimings.DNSLookup =
      Int.tdiv
        (((rs.filter fun r => resultKey r == k).map
          (fun r => r.TotalTimings.DNSLookup)).sum)
        ((((rs.filter fun r => resultKey r == k).map
          (fun r => r.RequestsCount)).sum : Nat)) ∧
    R.AggregateTimings.TCPConnection =
      Int.tdiv
        (((rs.filter fun r => resultKey r == k).map
          (fun r => r.TotalTimings.TCPConnection)).sum)
        ((((rs.filter fun r => resultKey r == k).map
          (fun r => r.RequestsCount)).sum : Nat)) ∧
    R.AggregateTimings.TLSHandshake =
      Int.tdiv
        (((rs.filter fun r => resultKey r == k).map
          (fun r => r.TotalTimings.TLSHandshake)).sum)
        ((((rs.filter fun r => resultKey r == k).map
          (fun r => r.RequestsCount)).sum : Nat)) ∧
    R.AggregateTimings.ServerProcessing =
      Int.tdiv
        (((rs.filter fun r => resultKey r == k).map
          (fun r => r.TotalTimings.ServerProcessing)).sum)
        ((((rs.filter fun r => resultKey r == k).map
          (fun r => r.RequestsCount)).sum : Nat)) := by
  obtain ⟨A, hA, hfin⟩ := Option.map_eq_some'.mp hR
  have hcount : A.RequestsCount =
      ((rs.filter fun r => resultKey r == k).map (·.RequestsCount)).sum :=
    aggregateKeyFold_count _ A hA
  have hDNS : A.AggregateTimings.DNSLookup =
      ((rs.filter fun r => resultKey r == k).map
        (fun r => r.TotalTimings.DNSLookup)).sum :=
    aggregateKeyFold_phase (fun t => t.DNSLookup) (fun x y => rfl) _ A hA
  have hTCP : A.AggregateTimings.TCPConnection =
      ((rs.filter fun r => resultKey r == k).map
        (fun r => r.TotalTimings.TCPConnection)).sum :=
    aggregateKeyFold_phase (fun t => t.TCPConnection) (fun x y => rfl) _ A hA
  have hTLS : A.AggregateTimings.TLSHandshake =
      ((rs.filter fun r => resultKey r == k).map
        (fun r => r.TotalTimings.TLSHandshake)).sum :=
    aggregateKeyFold_phase (fun t => t.TLSHandshake) (fun x y => rfl) _ A hA
  have hSP : A.AggregateTimings.ServerProcessing =
      ((rs.filter fun r => resultKey r == k).map
        (fun r => r.TotalTimings.ServerProcessing)).sum :=
    aggregateKeyFold_phase (fun t => t.ServerProcessing) (fun x y => rfl) _ A hA
  subst hfin
  refine ⟨⟨A, hA, rfl, rfl, rfl, rfl, rfl, rfl, rfl, rfl, rfl⟩,
    hcount, ?_, ?_, ?_, ?_⟩
  · show Int.tdiv A.AggregateTimings.DNSLookup A.RequestsCount = _
    rw [hDNS, hcount]
  · show Int.tdiv A.AggregateTimings.TCPConnection A.RequestsCount = _
    rw [hTCP, hcount]
  · show Int.tdiv A.AggregateTimings.TLSHandshake A.RequestsCount = _
    rw [hTLS, hcount]
  · show Int.tdiv A.AggregateTimings.ServerProcessing A.RequestsCount = _
    rw [hSP, hcount]

theorem finalize_once_after_merges_witness :
    (finalizeAggregate (mergeAggregate (seedAggregate resW1) resW2)).RequestsCount =
      ((([resW1, resW2]).filter fun r => resultKey r == "u_m").map
        (·.RequestsCount)).sum ∧
    (finalizeAggregate (mergeAggregate (seedAggregate resW1) resW2)).AggregateTimings.DNSLookup =
      Int.tdiv
        ((([resW1, resW2]).filter fun r => resultKey r == "u_m").map
          (fun r => r.TotalTimings.DNSLookup)).sum
        (((([resW1, resW2]).filter fun r => resultKey r == "u_m").map
          (fun r => r.RequestsCount)).sum : Nat) := by
  have h := finalize_once_after_merges [resW1, resW2] "u_m"
    (finalizeAggregate (mergeAggregate (seedAggregate resW1) resW2)) (by decide)
  exact ⟨h.2.1, h.2.2.1⟩

/-- C10: every aggregate present in the map at finalization time has a
successful-request count of at least one — the stream (in any arrival
order) carries only results with non-zero counts and merging only adds
them — so the finalization division never divides by zero. -/
theorem aggregate_count_positive (url : String) (accountKeys : List String)
    (units : List UnitEnv) (stream : List BenchmarkResult) (k : String)
    (A : AggregateBenchmarkResult)
    (hstream : stream.Perm (sentResults url accountKeys units))
    (hA : aggregateMap stream k = some A) :
    1 ≤ A.RequestsCount := by
  have hmem : ∀ r ∈ stream.filter (fun r => resultKey r == k),
      1 ≤ r.RequestsCount := by
    intro r hr
    have hr1 : r ∈ stream := List.mem_of_mem_filter hr
    have hr2 : r ∈ sentResults url accountKeys units := hstream.mem_iff.mp hr1
    have hr3 := List.of_mem_filter hr2
    simp at hr3
    omega
  have hcount : A.RequestsCount =
      ((stream.filter fun r => resultKey r == k).map (·.RequestsCount)).sum :=
    aggregateKeyFold_count _ A hA
  cases hfl : stream.filter (fun r => resultKey r == k) with
  | nil =>
    have : aggregateKeyFold (stream.filter fun r => resultKey r == k) = none := by
      rw [hfl]
      rfl
    rw [show aggregateMap stream k =
        aggregateKeyFold (stream.filter fun r => resultKey r == k) from rfl,
      this] at hA
    cases hA
  | cons x t =>
    have hx : 1 ≤ x.RequestsCount :=
      hmem x (by rw [hfl]; exact List.mem_cons_self x t)
    rw [hfl, List.map_cons, List.sum_cons] at hcount
    omega

theorem aggregate_count_positive_witness :
    1 ≤ (seedAggregate (benchmarkMethod "u" GetAccountInfo "k0" [envMixA])).RequestsCount :=
  aggregate_count_positive "u" ["k0"] [⟨false, [envMixA]⟩]
    (sentResults "u" ["k0"] [⟨false, [envMixA]⟩]) "u_getAccountInfo"
    (seedAggregate (benchmarkMethod "u" GetAccountInfo "k0" [envMixA]))
    (List.Perm.refl _) (by decide)

end LoadTesting
